import Mathlib

/-!
Verification of the exclusive-lock and attribute-change-notification core
(`src/wilhelm/src/locks.c`).  The debug-build (`USE_DEBUG`) variants of the
functions are embedded shallowly: pthread thread identities are natural
numbers with `0` playing the role of the all-zero ("nil") `pthread_t`,
debug provenance (`mFile`, `mLine`) is a pair of naturals with `0` standing
for the NULL file pointer / line 0, bit masks are `Nat` viewed bitwise, and
a failing `assert` is modelled as returning `none` (resp. `Except.error`).
Blocking mutex acquisition is assumed to complete, as the specification
stipulates; the real-time backoff loop has no observable effect beyond that.
-/

/-- Models the C attribute constant `ATTR_NONE` (the empty attribute mask). -/
def ATTR_NONE : Nat := 0

/-- Modelled from the spec: `ATTR_INDEX_MAX` is "the next bit position after
the last attribute".  Its numeric value comes from a header that is not part
of the sources under verification; we use the width of the C `unsigned`
mask word as a sound upper bound for the number of attribute bit
positions. -/
def ATTR_INDEX_MAX : Nat := 32

/-- Modelled from the spec: `MAX_INSTANCE`, the aggregator's fixed maximum
tracked-instance count (the width of `mChangedMask`).  The numeric value
comes from a header that is not part of the sources under verification. -/
def MAX_INSTANCE : Nat := 32

/-- Modelled from the spec: first object ID of Range A (the OpenMAX AL
range), from the Khronos headers which are not part of the sources under
verification. -/
def XA_OBJECTID_ENGINE : Nat := 1

/-- Modelled from the spec: last object ID of Range A (the OpenMAX AL
range), from the Khronos headers which are not part of the sources under
verification. -/
def XA_OBJECTID_CAMERADEVICE : Nat := 8

/-- Modelled from the spec: first object ID of Range B (the OpenSL ES
range), from the Khronos headers which are not part of the sources under
verification. -/
def SL_OBJECTID_ENGINE : Nat := 0x1001

/-- Modelled from the spec: last object ID of Range B (the OpenSL ES
range), from the Khronos headers which are not part of the sources under
verification. -/
def SL_OBJECTID_METADATAEXTRACTOR : Nat := 0x100A

/-- The fields of `IObject` that the lock/attribute core reads and writes.
`objectID` is the stable per-object value returned by
`IObjectToObjectID(thiz)`; `mOwner = 0` models the all-zero `pthread_t`
("no owner"); `mFile = 0` models a NULL `const char *`. -/
structure IObject where
  objectID : Nat
  mInstanceID : Nat
  mAttributesMask : Nat
  mOwner : Nat
  mFile : Nat
  mLine : Nat
deriving Repr, DecidableEq

/-- The single field of the engine (aggregator) that the core touches:
`mChangedMask`, one bit per tracked instance slot. -/
structure IEngine where
  mChangedMask : Nat
deriving Repr, DecidableEq

/-- An attribute handler: receives the (still locked) object and returns the
mask of attribute bits it has handled synchronously.  Its side effects lie
on state outside this core and are not modelled. -/
def AttributeHandler : Type := IObject → Nat

/-- The static handler lookup `handlerTable[objectID][bit]`; `none` models a
NULL entry. -/
def HandlerTable : Type := Nat → Nat → Option AttributeHandler

/-- Bitwise "and not": `andNot a b` models the C expression `a & ~b` on an
unsigned word.  `Nat` has no complement, so it is phrased as
`a ^^^ (a &&& b)`, which agrees with `a AND (NOT b)` bit by bit. -/
def andNot (a b : Nat) : Nat := a ^^^ (a &&& b)

/-- Count trailing zeros, the C `ctz` intrinsic used by the dispatch scan.
Only ever applied to a nonzero argument in the code. -/
def ctz (n : Nat) : Nat :=
  if h : n = 0 then 0
  else if n % 2 = 1 then 0
  else 1 + ctz (n / 2)
decreasing_by exact Nat.div_lt_self (Nat.pos_of_ne_zero h) (by decide)

theorem testBit_andNot (a b i : Nat) :
    (andNot a b).testBit i = (a.testBit i && !(b.testBit i)) := by
  simp only [andNot, Nat.testBit_xor, Nat.testBit_and]
  cases a.testBit i <;> cases b.testBit i <;> rfl

theorem ctz_testBit (n : Nat) (h : n ≠ 0) : n.testBit (ctz n) = true := by
  induction n using Nat.strong_induction_on with
  | _ n ih =>
    rw [ctz]
    rw [dif_neg h]
    by_cases h2 : n % 2 = 1
    · rw [if_pos h2]
      simp [Nat.testBit_zero, h2]
    · rw [if_neg h2]
      have hmod : n % 2 = 0 := by omega
      have hne : n / 2 ≠ 0 := by omega
      rw [Nat.add_comm, Nat.testBit_add_one]
      exact ih (n / 2) (Nat.div_lt_self (Nat.pos_of_ne_zero h) (by decide)) hne

theorem andNot_clear_ctz_lt (n : Nat) (h : n ≠ 0) :
    andNot n (1 <<< ctz n) < n := by
  rw [Nat.one_shiftLeft]
  refine Nat.lt_of_testBit (ctz n) ?_ (ctz_testBit n h) fun j hj => ?_
  · rw [testBit_andNot, Nat.testBit_two_pow_self]
    cases n.testBit (ctz n) <;> rfl
  · rw [testBit_andNot, Nat.testBit_two_pow_of_ne (by omega)]
    cases n.testBit j <;> rfl

/-- The ascending list of set-bit positions of `n`, produced by the same
count-trailing-zeros / clear-lowest-bit scheme the dispatch loop uses.
Reference characterization for the loop's ghost visit trace. -/
def bitList (n : Nat) : List Nat :=
  if h : n = 0 then []
  else ctz n :: bitList (andNot n (1 <<< ctz n))
decreasing_by exact andNot_clear_ctz_lt n h

/-- Number of set bits of `n` (population count), defined independently of
the scan. -/
def popCount (n : Nat) : Nat :=
  if h : n = 0 then 0
  else n % 2 + popCount (n / 2)
decreasing_by exact Nat.div_lt_self (Nat.pos_of_ne_zero h) (by decide)

/-- Lines 117-126 of `locks.c`: map an object ID into the contiguous
handler-table index space.  Range A (XA IDs) maps to itself, Range B (SL
IDs) shifts down by `SL_OBJECTID_ENGINE - XA_OBJECTID_CAMERADEVICE - 1`,
anything else is `assert(false)`, modelled as `none`. -/
def normalizeObjectID (objectID : Nat) : Option Nat :=
  if XA_OBJECTID_ENGINE ≤ objectID ∧ objectID ≤ XA_OBJECTID_CAMERADEVICE then
    some objectID
  else if SL_OBJECTID_ENGINE ≤ objectID ∧ objectID ≤ SL_OBJECTID_METADATAEXTRACTOR then
    some (objectID - (SL_OBJECTID_ENGINE - XA_OBJECTID_CAMERADEVICE - 1))
  else
    none

/-- Lines 130-142 of `locks.c`: the synchronous-handler scan.  Arguments
`attributes` and `asynchronous` are the loop-control mask and the working
asynchronous mask.  Returns `(asynchronous, handledUnion, visited)` on
success, where `handledUnion` (the union of all masks returned by invoked
handlers) and `visited` (the scanned bit positions, in scan order) are
ghost instrumentation with no counterpart in the C state; `none` models the
`assert(ATTR_INDEX_MAX > bit)` failing. -/
def scanAttributes (table : HandlerTable) (thiz : IObject) (objectID : Nat)
    (attributes asynchronous : Nat) : Option (Nat × Nat × List Nat) :=
  if h : attributes = 0 then some (asynchronous, 0, [])
  else
    let bit := ctz attributes
    if ATTR_INDEX_MAX > bit then
      let handled := match table objectID bit with
        | some handler => handler thiz
        | none => 0
      match scanAttributes table thiz objectID (andNot attributes (1 <<< bit))
          (andNot asynchronous handled) with
      | some (a, hs, l) => some (a, handled ||| hs, bit :: l)
      | none => none
    else none
termination_by attributes
decreasing_by exact andNot_clear_ctz_lt attributes h

/-- Distinguishes the two fatal diagnostics of `object_lock_exclusive_`
lines 48-56: the recorded owner equals the calling thread (recursive-lock
bug) or is some other nonzero thread (corrupted hand-off). -/
inductive LockFailure where
  | recursiveLock
  | corruptedHandoff
deriving Repr, DecidableEq

/-- Lines 23-61 of `locks.c` (`USE_DEBUG`): exclusively lock an object.
The trylock/backoff/blocking sequence is assumed to complete (per the
specification's concurrency model); afterwards the nil-owner invariant is
checked and provenance recorded.  `self` is `pthread_self()`, nonzero. -/
def object_lock_exclusive_ (thiz : IObject) (self file line : Nat) :
    Except LockFailure IObject :=
  if thiz.mOwner ≠ 0 then
    if thiz.mOwner = self then Except.error LockFailure.recursiveLock
    else Except.error LockFailure.corruptedHandoff
  else
    Except.ok { thiz with mOwner := self, mFile := file, mLine := line }

/-- Lines 75-86 of `locks.c` (`USE_DEBUG`): exclusively unlock an object
without reporting updates.  The three `assert`s are modelled as the guard;
on success the owner is cleared and provenance set to the unlock site. -/
def object_unlock_exclusive_ (thiz : IObject) (self file line : Nat) :
    Option IObject :=
  if thiz.mOwner = self ∧ thiz.mFile ≠ 0 ∧ thiz.mLine ≠ 0 then
    some { thiz with mOwner := 0, mFile := file, mLine := line }
  else none

/-- Result of `object_unlock_exclusive_attributes_`: the post-states of the
object and of its engine, plus ghost instrumentation: `asyncFinal` is the
residual asynchronous mask after the handler scan (before coalescing
suppression), `handledUnion` the union of the invoked handlers' returned
masks, `visited` the scanned bit positions in order, and `notified` records
whether the aggregator's mask was written. -/
structure ReportResult where
  obj : IObject
  engine : IEngine
  asyncFinal : Nat
  handledUnion : Nat
  visited : List Nat
  notified : Bool
deriving Repr, DecidableEq

/-- Lines 101-175 of `locks.c` (`USE_DEBUG`): exclusively unlock an object
and report updates to the given attribute mask.  In order: the ownership
asserts, object-ID normalization, the synchronous handler scan, the
coalescing merge into `mAttributesMask`, provenance update and mutex
release, and finally — after the object's lock is gone — the aggregator
notification under the engine's own lock.  `none` models a failing
`assert`. -/
def object_unlock_exclusive_attributes_ (table : HandlerTable) (thiz : IObject)
    (engine : IEngine) (attributes : Nat) (self file line : Nat) :
    Option ReportResult :=
  if thiz.mOwner = self ∧ thiz.mFile ≠ 0 ∧ thiz.mLine ≠ 0 then
    match normalizeObjectID thiz.objectID with
    | none => none
    | some objectID =>
      match scanAttributes table thiz objectID attributes attributes with
      | none => none
      | some (asynchronous, handled, visited) =>
        let oldAttributesMask := thiz.mAttributesMask
        let merged : Nat × Nat :=
          if asynchronous ≠ 0 then
            (oldAttributesMask ||| asynchronous,
             if oldAttributesMask ≠ 0 then ATTR_NONE else asynchronous)
          else (oldAttributesMask, asynchronous)
        let obj' : IObject :=
          { thiz with mAttributesMask := merged.1, mOwner := 0,
                      mFile := file, mLine := line }
        if merged.2 ≠ ATTR_NONE then
          let id := thiz.mInstanceID
          if id ≠ 0 then
            if id - 1 < MAX_INSTANCE then
              some ⟨obj',
                    ⟨engine.mChangedMask ||| (1 <<< (id - 1))⟩,
                    asynchronous, handled, visited, true⟩
            else none
          else some ⟨obj', engine, asynchronous, handled, visited, false⟩
        else some ⟨obj', engine, asynchronous, handled, visited, false⟩
  else none

/-- Lines 181-198 of `locks.c` (`USE_DEBUG`): wait on the object's
condition variable.  The guard models the three entry `assert`s; the first
component of the result is the state published just before suspending
(owner cleared, provenance at the wait site); `during` models whatever
other threads do to the object while this thread is suspended inside
`pthread_cond_wait`; the second component is the state after the code
re-stamps ownership and provenance on return. -/
def object_cond_wait_ (during : IObject → IObject) (thiz : IObject)
    (self file line : Nat) : Option (IObject × IObject) :=
  if thiz.mOwner = self ∧ thiz.mFile ≠ 0 ∧ thiz.mLine ≠ 0 then
    let suspended : IObject :=
      { thiz with mOwner := 0, mFile := file, mLine := line }
    let woken := during suspended
    some (suspended,
          { woken with mOwner := self, mFile := file, mLine := line })
  else none

/-- Fixture for concrete evaluations: a handler table with no handlers
registered. -/
def wTable : HandlerTable := fun _ _ => none

/-- Fixture for concrete evaluations: a handler table whose single handler,
at table row `XA_OBJECTID_ENGINE` and bit 0, reports bits 0 and 2 as
synchronously handled. -/
def wTableWide : HandlerTable := fun oid bit =>
  if oid = XA_OBJECTID_ENGINE ∧ bit = 0 then some (fun _ => 5) else none

/-- Fixture for concrete evaluations: a locked object with in-range
`objectID`, instance slot 1, no pending attributes, owner thread 7,
provenance set. -/
def wThiz : IObject := ⟨1, 1, 0, 7, 1, 1⟩

/-- Fixture for concrete evaluations: an object identical to `wThiz` except
that its `objectID` lies outside both external ID ranges. -/
def wBad : IObject := ⟨0, 1, 0, 7, 1, 1⟩

/-- Fixture: the result of reporting mask 1 on `wThiz` with `wTable` from an
empty engine (computed, and certified by `wEval1`). -/
def wR1 : ReportResult := ⟨⟨1, 1, 1, 0, 2, 3⟩, ⟨1⟩, 1, 0, [0], true⟩

/-- Fixture: `wR1.obj` re-locked by thread 7 (certified by `wLockEval`). -/
def wObj1 : IObject := ⟨1, 1, 1, 7, 1, 1⟩

/-- Fixture: the result of the follow-up report of mask 2 on `wObj1`
(certified by `wEval2`). -/
def wR2 : ReportResult := ⟨⟨1, 1, 3, 0, 2, 3⟩, ⟨1⟩, 2, 0, [1], false⟩

/-- Fixture: the result of reporting mask 5 on `wThiz` with `wTableWide`
(certified by `wEval3`): the bit-0 handler also retires bit 2. -/
def wR3 : ReportResult := ⟨⟨1, 1, 0, 0, 2, 3⟩, ⟨0⟩, 0, 5, [0, 2], false⟩

theorem andNot_zero (a : Nat) : andNot a 0 = a := by
  simp [andNot]

theorem andNot_andNot (a b c : Nat) :
    andNot (andNot a b) c = andNot a (b ||| c) := by
  refine Nat.eq_of_testBit_eq fun i => ?_
  simp only [testBit_andNot, Nat.testBit_or]
  cases a.testBit i <;> cases b.testBit i <;> cases c.testBit i <;> rfl

theorem ctz_least (n k : Nat) (h : n ≠ 0) (hk : k < ctz n) :
    n.testBit k = false := by
  induction n using Nat.strong_induction_on generalizing k with
  | _ n ih =>
    rw [ctz] at hk
    rw [dif_neg h] at hk
    by_cases h2 : n % 2 = 1
    · rw [if_pos h2] at hk
      omega
    · rw [if_neg h2] at hk
      have hmod : n % 2 = 0 := by omega
      have hne : n / 2 ≠ 0 := by omega
      match k with
      | 0 => simp [Nat.testBit_zero, hmod]
      | k + 1 =>
        rw [Nat.testBit_add_one]
        exact ih (n / 2) (Nat.div_lt_self (Nat.pos_of_ne_zero h) (by decide))
          k hne (by omega)

theorem testBit_one_shiftLeft (b i : Nat) :
    (1 <<< b).testBit i = decide (b = i) := by
  rw [Nat.one_shiftLeft, Nat.testBit_two_pow]

theorem popCount_eq (m : Nat) : popCount m = m % 2 + popCount (m / 2) := by
  by_cases h : m = 0
  · subst h
    rw [popCount]
    simp [popCount]
  · rw [popCount, dif_neg h]

theorem andNot_div_two (a b : Nat) : andNot a b / 2 = andNot (a / 2) (b / 2) := by
  rw [andNot, andNot, Nat.xor_div_two, Nat.and_div_two]

theorem andNot_mod_two (a b : Nat) (hb : b.testBit 0 = false) :
    andNot a b % 2 = a % 2 := by
  have h0 := testBit_andNot a b 0
  rw [hb] at h0
  simp only [Nat.testBit_zero, Bool.not_false, Bool.and_true] at h0
  have h1 := decide_eq_decide.mp h0
  omega

theorem popCount_clearBit (b : Nat) :
    ∀ n, n.testBit b = true → popCount (andNot n (2 ^ b)) + 1 = popCount n := by
  induction b with
  | zero =>
    intro n h
    have hmod : n % 2 = 1 := by
      simpa [Nat.testBit_zero] using h
    have hm2 : andNot n (2 ^ 0) % 2 = 0 := by
      have h0 := testBit_andNot n (2 ^ 0) 0
      rw [Nat.testBit_two_pow_self] at h0
      simp only [Bool.not_true, Bool.and_false, Nat.testBit_zero,
        decide_eq_false_iff_not] at h0
      omega
    have hd2 : andNot n (2 ^ 0) / 2 = n / 2 := by
      have : (2 : Nat) ^ 0 / 2 = 0 := by decide
      rw [andNot_div_two, this, andNot_zero]
    rw [popCount_eq (andNot n (2 ^ 0)), hm2, hd2, popCount_eq n, hmod]
    omega
  | succ b ih =>
    intro n h
    have hb0 : (2 ^ (b + 1)).testBit 0 = false :=
      Nat.testBit_two_pow_of_ne (by omega)
    have hm2 : andNot n (2 ^ (b + 1)) % 2 = n % 2 := andNot_mod_two n _ hb0
    have hd2 : andNot n (2 ^ (b + 1)) / 2 = andNot (n / 2) (2 ^ b) := by
      rw [andNot_div_two, Nat.pow_succ]
      congr 1
      omega
    have hrec : (n / 2).testBit b = true := by
      rw [Nat.testBit_div_two]
      exact h
    have := ih (n / 2) hrec
    rw [popCount_eq (andNot n (2 ^ (b + 1))), hm2, hd2, popCount_eq n]
    omega

theorem bitList_mem (n : Nat) : ∀ i, i ∈ bitList n ↔ n.testBit i = true := by
  induction n using Nat.strong_induction_on with
  | _ n ih =>
    intro i
    by_cases h0 : n = 0
    · subst h0
      simp [bitList]
    · rw [bitList, dif_neg h0]
      have hlt := andNot_clear_ctz_lt n h0
      rw [List.mem_cons, ih _ hlt i, testBit_andNot, testBit_one_shiftLeft]
      constructor
      · rintro (rfl | hmem)
        · exact ctz_testBit n h0
        · simp only [Bool.and_eq_true] at hmem
          exact hmem.1
      · intro ht
        by_cases hi : i = ctz n
        · exact Or.inl hi
        · refine Or.inr ?_
          rw [ht]
          simp only [Bool.true_and, Bool.not_eq_true', decide_eq_false_iff_not]
          exact fun hc => hi hc.symm

theorem bitList_pairwise (n : Nat) : List.Pairwise (· < ·) (bitList n) := by
  induction n using Nat.strong_induction_on with
  | _ n ih =>
    by_cases h0 : n = 0
    · subst h0
      simp [bitList]
    · rw [bitList, dif_neg h0]
      have hlt := andNot_clear_ctz_lt n h0
      refine List.Pairwise.cons (fun j hj => ?_) (ih _ hlt)
      have hbit := (bitList_mem _ j).mp hj
      rw [testBit_andNot, testBit_one_shiftLeft] at hbit
      simp only [Bool.and_eq_true] at hbit
      obtain ⟨ht, hne⟩ := hbit
      have hne' : ctz n ≠ j := by
        intro hc
        simp [hc] at hne
      rcases Nat.lt_or_ge (ctz n) j with hlt' | hge
      · exact hlt'
      · have : j < ctz n := by omega
        rw [ctz_least n j h0 this] at ht
        cases ht

theorem bitList_length (n : Nat) : (bitList n).length = popCount n := by
  induction n using Nat.strong_induction_on with
  | _ n ih =>
    by_cases h0 : n = 0
    · subst h0
      rw [bitList]
      simp [popCount]
    · rw [bitList, dif_neg h0]
      have hlt := andNot_clear_ctz_lt n h0
      have hcount := popCount_clearBit (ctz n) n (ctz_testBit n h0)
      rw [List.length_cons, ih _ hlt, Nat.one_shiftLeft]
      omega

theorem scanAttributes_spec (table : HandlerTable) (thiz : IObject) (oid : Nat)
    (attributes asynchronous : Nat) :
    ∀ a hs v, scanAttributes table thiz oid attributes asynchronous = some (a, hs, v) →
      v = bitList attributes ∧ a = andNot asynchronous hs := by
  induction attributes, asynchronous using scanAttributes.induct table thiz oid with
  | case1 asynchronous =>
    intro a hs v h
    rw [scanAttributes] at h
    simp only [dif_pos, Option.some.injEq, Prod.mk.injEq] at h
    obtain ⟨rfl, rfl, rfl⟩ := h
    exact ⟨by simp [bitList], (andNot_zero asynchronous).symm⟩
  | case2 attributes asynchronous h0 bit hb handled a' hs' l hrec ih =>
    intro a hs v h
    rw [scanAttributes] at h
    simp only [dif_neg h0, if_pos hb, hrec, Option.some.injEq, Prod.mk.injEq] at h
    obtain ⟨h1, h2, h3⟩ := h
    subst h1 h2 h3
    obtain ⟨hv, ha⟩ := ih a' hs' l hrec
    constructor
    · rw [bitList, dif_neg h0, hv]
    · rw [ha, andNot_andNot]
  | case3 attributes asynchronous h0 bit hb handled hrec ih =>
    intro a hs v h
    rw [scanAttributes] at h
    simp only [dif_neg h0, if_pos hb, hrec] at h
    exact Option.noConfusion h
  | case4 attributes asynchronous h0 bit hb =>
    intro a hs v h
    rw [scanAttributes] at h
    simp only [dif_neg h0, if_neg hb] at h
    exact Option.noConfusion h

theorem unlockAttributes_spec (table : HandlerTable) (thiz : IObject)
    (engine : IEngine) (attributes self file line : Nat) (r : ReportResult)
    (h : object_unlock_exclusive_attributes_ table thiz engine attributes
          self file line = some r) :
    thiz.mOwner = self ∧ thiz.mFile ≠ 0 ∧ thiz.mLine ≠ 0 ∧
    (∃ oid, normalizeObjectID thiz.objectID = some oid ∧
      scanAttributes table thiz oid attributes attributes
        = some (r.asyncFinal, r.handledUnion, r.visited)) ∧
    r.obj = { thiz with mAttributesMask := thiz.mAttributesMask ||| r.asyncFinal,
                        mOwner := 0, mFile := file, mLine := line } ∧
    (if r.asyncFinal ≠ 0 ∧ thiz.mAttributesMask = 0 ∧ thiz.mInstanceID ≠ 0 then
        r.engine = ⟨engine.mChangedMask ||| (1 <<< (thiz.mInstanceID - 1))⟩ ∧
        r.notified = true ∧ thiz.mInstanceID - 1 < MAX_INSTANCE
      else r.engine = engine ∧ r.notified = false) := by
  rw [object_unlock_exclusive_attributes_] at h
  by_cases hg : thiz.mOwner = self ∧ thiz.mFile ≠ 0 ∧ thiz.mLine ≠ 0
  case neg => rw [if_neg hg] at h; exact Option.noConfusion h
  case pos =>
  rw [if_pos hg] at h
  obtain ⟨hg1, hg2, hg3⟩ := hg
  refine ⟨hg1, hg2, hg3, ?_⟩
  cases hnorm : normalizeObjectID thiz.objectID with
  | none =>
    rw [hnorm] at h
    exact Option.noConfusion h
  | some oid =>
  rw [hnorm] at h
  dsimp only at h
  cases hscan : scanAttributes table thiz oid attributes attributes with
  | none => rw [hscan] at h; exact Option.noConfusion h
  | some p =>
  obtain ⟨asyn, handled, visited⟩ := p
  rw [hscan] at h
  dsimp only at h
  by_cases ha : asyn ≠ 0
  · by_cases hold : thiz.mAttributesMask ≠ 0
    · -- suppressed: already dirty
      rw [if_pos ha, if_pos hold] at h
      dsimp only at h
      rw [if_neg (show ¬(ATTR_NONE ≠ ATTR_NONE) by simp)] at h
      simp only [Option.some.injEq] at h
      subst h
      refine ⟨⟨oid, rfl, hscan⟩, rfl, ?_⟩
      split
      · rename_i hc
        exact absurd hc.2.1 hold
      · exact ⟨rfl, rfl⟩
    · -- clean-to-dirty transition
      rw [if_pos ha, if_neg hold] at h
      dsimp only at h
      rw [if_pos (show asyn ≠ ATTR_NONE by simpa [ATTR_NONE] using ha)] at h
      by_cases hid : thiz.mInstanceID ≠ 0
      · rw [if_pos hid] at h
        by_cases hmax : thiz.mInstanceID - 1 < MAX_INSTANCE
        · rw [if_pos hmax] at h
          simp only [Option.some.injEq] at h
          subst h
          refine ⟨⟨oid, rfl, hscan⟩, rfl, ?_⟩
          split
          · exact ⟨rfl, rfl, hmax⟩
          · rename_i hc
            exact absurd ⟨ha, by omega, hid⟩ hc
        · rw [if_neg hmax] at h
          exact Option.noConfusion h
      · rw [if_neg hid] at h
        simp only [Option.some.injEq] at h
        subst h
        refine ⟨⟨oid, rfl, hscan⟩, rfl, ?_⟩
        split
        · rename_i hc
          exact absurd hc.2.2 hid
        · exact ⟨rfl, rfl⟩
  · -- nothing asynchronous
    have ha0 : asyn = 0 := by omega
    subst ha0
    rw [if_neg (show ¬((0 : Nat) ≠ 0) by omega)] at h
    dsimp only at h
    rw [if_neg (show ¬((0 : Nat) ≠ ATTR_NONE) by simp [ATTR_NONE])] at h
    simp only [Option.some.injEq] at h
    subst h
    refine ⟨⟨oid, rfl, hscan⟩, ?_, ?_⟩
    · simp
    · split
      · rename_i hc
        exact absurd rfl hc.1
      · exact ⟨rfl, rfl⟩

theorem andNot_or_cancel (m a : Nat)
    (hsub : ∀ i, a.testBit i = true → m.testBit i = true) :
    andNot m a ||| a = m := by
  refine Nat.eq_of_testBit_eq fun i => ?_
  rw [Nat.testBit_or, testBit_andNot]
  cases ha : a.testBit i
  · simp
  · simp [hsub i ha]

theorem andNot_and_disjoint (m a : Nat) : andNot m a &&& a = 0 := by
  refine Nat.eq_of_testBit_eq fun i => ?_
  rw [Nat.testBit_and, testBit_andNot, Nat.zero_testBit]
  cases a.testBit i <;> cases m.testBit i <;> rfl

theorem lock_spec (thiz : IObject) (self file line : Nat) (o : IObject)
    (h : object_lock_exclusive_ thiz self file line = Except.ok o) :
    thiz.mOwner = 0 ∧
    o = { thiz with mOwner := self, mFile := file, mLine := line } := by
  rw [object_lock_exclusive_] at h
  by_cases h0 : thiz.mOwner ≠ 0
  · rw [if_pos h0] at h
    by_cases h1 : thiz.mOwner = self
    · rw [if_pos h1] at h
      exact Except.noConfusion h
    · rw [if_neg h1] at h
      exact Except.noConfusion h
  · rw [if_neg h0] at h
    simp only [Except.ok.injEq] at h
    exact ⟨by omega, h.symm⟩

theorem wEval1 : object_unlock_exclusive_attributes_ wTable wThiz ⟨0⟩ 1 7 2 3
    = some wR1 := by
  simp [object_unlock_exclusive_attributes_, scanAttributes, ctz, andNot,
    wTable, wThiz, wR1, ATTR_INDEX_MAX, normalizeObjectID, XA_OBJECTID_ENGINE,
    XA_OBJECTID_CAMERADEVICE, SL_OBJECTID_ENGINE,
    SL_OBJECTID_METADATAEXTRACTOR, ATTR_NONE, MAX_INSTANCE]

theorem wLockEval : object_lock_exclusive_ wR1.obj 7 1 1 = Except.ok wObj1 := by
  simp [object_lock_exclusive_, wR1, wObj1]

theorem wEval2 : object_unlock_exclusive_attributes_ wTable wObj1 wR1.engine
    2 7 2 3 = some wR2 := by
  simp [object_unlock_exclusive_attributes_, scanAttributes, ctz, andNot,
    wTable, wObj1, wR1, wR2, ATTR_INDEX_MAX, normalizeObjectID,
    XA_OBJECTID_ENGINE, XA_OBJECTID_CAMERADEVICE, SL_OBJECTID_ENGINE,
    SL_OBJECTID_METADATAEXTRACTOR, ATTR_NONE, MAX_INSTANCE]

theorem wEval3 : object_unlock_exclusive_attributes_ wTableWide wThiz ⟨0⟩
    5 7 2 3 = some wR3 := by
  simp [object_unlock_exclusive_attributes_, scanAttributes, ctz, andNot,
    wTableWide, wThiz, wR3, ATTR_INDEX_MAX, normalizeObjectID,
    XA_OBJECTID_ENGINE, XA_OBJECTID_CAMERADEVICE, SL_OBJECTID_ENGINE,
    SL_OBJECTID_METADATAEXTRACTOR, ATTR_NONE, MAX_INSTANCE]

/-- C1: for every mask `attributes` reported while the lock is held, the
bits cleared from the working asynchronous mask by synchronous handlers
(`andNot attributes r.asyncFinal`) and the bits OR-ed into the object's
pending mask (`r.asyncFinal`) partition `attributes` exactly: their union
is `attributes`, they are disjoint, and the pending mask receives exactly
`r.asyncFinal`. -/
theorem unlock_attributes_mask_partition (table : HandlerTable)
    (thiz : IObject) (engine : IEngine) (attributes self file line : Nat)
    (r : ReportResult)
    (h : object_unlock_exclusive_attributes_ table thiz engine attributes
          self file line = some r) :
    andNot attributes r.asyncFinal ||| r.asyncFinal = attributes ∧
    andNot attributes r.asyncFinal &&& r.asyncFinal = 0 ∧
    r.obj.mAttributesMask = thiz.mAttributesMask ||| r.asyncFinal := by
  obtain ⟨-, -, -, ⟨oid, hnorm, hscan⟩, hobj, -⟩ :=
    unlockAttributes_spec table thiz engine attributes self file line r h
  obtain ⟨-, ha⟩ :=
    scanAttributes_spec table thiz oid attributes attributes
      r.asyncFinal r.handledUnion r.visited hscan
  have hsub : ∀ i, r.asyncFinal.testBit i = true →
      attributes.testBit i = true := by
    intro i hi
    rw [ha, testBit_andNot] at hi
    simp only [Bool.and_eq_true] at hi
    exact hi.1
  exact ⟨andNot_or_cancel attributes r.asyncFinal hsub,
    andNot_and_disjoint attributes r.asyncFinal, by rw [hobj]⟩

/-- Witness for C1 at the concrete report certified by `wEval1`. -/
theorem unlock_attributes_mask_partition_witness :
    andNot 1 wR1.asyncFinal ||| wR1.asyncFinal = 1 ∧
    andNot 1 wR1.asyncFinal &&& wR1.asyncFinal = 0 ∧
    wR1.obj.mAttributesMask = wThiz.mAttributesMask ||| wR1.asyncFinal :=
  unlock_attributes_mask_partition wTable wThiz ⟨0⟩ 1 7 2 3 wR1 wEval1

/-- C4: after the object's lock is released, the aggregator's mask is OR-ed
with exactly the single bit `1 <<< (instanceSlot - 1)` when the residual
asynchronous mask is nonzero, unsuppressed (the pending mask was empty) and
the instance slot is nonzero; in every other case the aggregator is left
untouched. -/
theorem unlock_attributes_notifies_exact_bit (table : HandlerTable)
    (thiz : IObject) (engine : IEngine) (attributes self file line : Nat)
    (r : ReportResult)
    (h : object_unlock_exclusive_attributes_ table thiz engine attributes
          self file line = some r) :
    ((r.asyncFinal ≠ 0 ∧ thiz.mAttributesMask = 0 ∧ thiz.mInstanceID ≠ 0) →
      r.engine.mChangedMask
        = engine.mChangedMask ||| (1 <<< (thiz.mInstanceID - 1)) ∧
      r.notified = true) ∧
    ((r.asyncFinal = 0 ∨ thiz.mAttributesMask ≠ 0 ∨ thiz.mInstanceID = 0) →
      r.engine = engine ∧ r.notified = false) := by
  obtain ⟨-, -, -, -, -, hif⟩ :=
    unlockAttributes_spec table thiz engine attributes self file line r h
  constructor
  · intro hc
    rw [if_pos hc] at hif
    exact ⟨by rw [hif.1], hif.2.1⟩
  · intro hd
    have hnc : ¬(r.asyncFinal ≠ 0 ∧ thiz.mAttributesMask = 0 ∧
        thiz.mInstanceID ≠ 0) := by
      intro hc
      rcases hd with h1 | h1 | h1
      · exact hc.1 h1
      · exact h1 hc.2.1
      · exact hc.2.2 h1
    rw [if_neg hnc] at hif
    exact hif

/-- Witness for C4: both the notifying case (`wEval1`) and the suppressed
case (`wEval2`, where the pending mask was already dirty). -/
theorem unlock_attributes_notifies_exact_bit_witness :
    (wR1.engine.mChangedMask
      = (⟨0⟩ : IEngine).mChangedMask ||| (1 <<< (wThiz.mInstanceID - 1)) ∧
      wR1.notified = true) ∧
    (wR2.engine = wR1.engine ∧ wR2.notified = false) :=
  ⟨(unlock_attributes_notifies_exact_bit wTable wThiz ⟨0⟩ 1 7 2 3 wR1
      wEval1).1 ⟨by decide, by decide, by decide⟩,
   (unlock_attributes_notifies_exact_bit wTable wObj1 wR1.engine 2 7 2 3 wR2
      wEval2).2 (Or.inr (Or.inl (by decide)))⟩

/-- C5: the dispatch scan visits exactly the set bits of the reported mask,
in strictly ascending bit-position order, each exactly once, and performs
`popCount attributes` iterations. -/
theorem unlock_attributes_scan_each_bit_once (table : HandlerTable)
    (thiz : IObject) (engine : IEngine) (attributes self file line : Nat)
    (r : ReportResult)
    (h : object_unlock_exclusive_attributes_ table thiz engine attributes
          self file line = some r) :
    r.visited = bitList attributes ∧
    List.Pairwise (· < ·) r.visited ∧
    r.visited.Nodup ∧
    (∀ i, i ∈ r.visited ↔ attributes.testBit i = true) ∧
    r.visited.length = popCount attributes := by
  obtain ⟨-, -, -, ⟨oid, hnorm, hscan⟩, -, -⟩ :=
    unlockAttributes_spec table thiz engine attributes self file line r h
  obtain ⟨hv, -⟩ :=
    scanAttributes_spec table thiz oid attributes attributes
      r.asyncFinal r.handledUnion r.visited hscan
  rw [hv]
  exact ⟨rfl, bitList_pairwise attributes,
    (bitList_pairwise attributes).imp Nat.ne_of_lt,
    bitList_mem attributes, bitList_length attributes⟩

/-- Witness for C5 at the two-bit report certified by `wEval3`. -/
theorem unlock_attributes_scan_each_bit_once_witness :
    wR3.visited = bitList 5 ∧
    List.Pairwise (· < ·) wR3.visited ∧
    wR3.visited.Nodup ∧
    wR3.visited.length = popCount 5 :=
  have hall := unlock_attributes_scan_each_bit_once wTableWide wThiz ⟨0⟩
    5 7 2 3 wR3 wEval3
  ⟨hall.1, hall.2.1, hall.2.2.1, hall.2.2.2.2⟩

/-- C6: the report operation only ever grows the two shared masks: the
object's pending mask is updated by a bitwise OR with the residual
asynchronous mask, and the aggregator's mask is either untouched or OR-ed
with the single instance bit; no bit of either mask is cleared. -/
theorem core_mask_updates_monotone (table : HandlerTable) (thiz : IObject)
    (engine : IEngine) (attributes self file line : Nat) (r : ReportResult)
    (h : object_unlock_exclusive_attributes_ table thiz engine attributes
          self file line = some r) :
    r.obj.mAttributesMask = thiz.mAttributesMask ||| r.asyncFinal ∧
    (∀ i, thiz.mAttributesMask.testBit i = true →
      r.obj.mAttributesMask.testBit i = true) ∧
    (r.engine.mChangedMask = engine.mChangedMask ∨
      r.engine.mChangedMask
        = engine.mChangedMask ||| (1 <<< (thiz.mInstanceID - 1))) ∧
    (∀ i, engine.mChangedMask.testBit i = true →
      r.engine.mChangedMask.testBit i = true) := by
  obtain ⟨-, -, -, -, hobj, hif⟩ :=
    unlockAttributes_spec table thiz engine attributes self file line r h
  have h1 : r.obj.mAttributesMask = thiz.mAttributesMask ||| r.asyncFinal := by
    rw [hobj]
  have heng : r.engine.mChangedMask = engine.mChangedMask ∨
      r.engine.mChangedMask
        = engine.mChangedMask ||| (1 <<< (thiz.mInstanceID - 1)) := by
    by_cases hc : r.asyncFinal ≠ 0 ∧ thiz.mAttributesMask = 0 ∧
        thiz.mInstanceID ≠ 0
    · rw [if_pos hc] at hif
      exact Or.inr (by rw [hif.1])
    · rw [if_neg hc] at hif
      exact Or.inl (by rw [hif.1])
  refine ⟨h1, ?_, heng, ?_⟩
  · intro i hi
    rw [h1, Nat.testBit_or, hi]
    rfl
  · intro i hi
    rcases heng with he | he
    · rw [he]
      exact hi
    · rw [he, Nat.testBit_or, hi]
      rfl

/-- Witness for C6 at the concrete report certified by `wEval1`. -/
theorem core_mask_updates_monotone_witness :
    wR1.obj.mAttributesMask = wThiz.mAttributesMask ||| wR1.asyncFinal ∧
    (wR1.engine.mChangedMask = (⟨0⟩ : IEngine).mChangedMask ∨
      wR1.engine.mChangedMask
        = (⟨0⟩ : IEngine).mChangedMask ||| (1 <<< (wThiz.mInstanceID - 1))) :=
  have hall := core_mask_updates_monotone wTable wThiz ⟨0⟩ 1 7 2 3 wR1 wEval1
  ⟨hall.1, hall.2.2.1⟩

/-- C9: a synchronous handler's whole returned mask is removed from the
asynchronous path: the residual asynchronous mask is `attributes` minus the
union of all returned masks, every bit some handler returned is absent from
it (so it is neither merged into the pending mask nor able to trigger a
notification), while the loop-control trace still visits every set bit of
`attributes` (only the scanned bit is cleared from the loop mask). -/
theorem handler_result_entire_mask_applied (table : HandlerTable)
    (thiz : IObject) (engine : IEngine) (attributes self file line : Nat)
    (r : ReportResult)
    (h : object_unlock_exclusive_attributes_ table thiz engine attributes
          self file line = some r) :
    r.asyncFinal = andNot attributes r.handledUnion ∧
    (∀ i, r.handledUnion.testBit i = true → r.asyncFinal.testBit i = false) ∧
    r.visited = bitList attributes ∧
    r.obj.mAttributesMask = thiz.mAttributesMask ||| r.asyncFinal := by
  obtain ⟨-, -, -, ⟨oid, hnorm, hscan⟩, hobj, -⟩ :=
    unlockAttributes_spec table thiz engine attributes self file line r h
  obtain ⟨hv, ha⟩ :=
    scanAttributes_spec table thiz oid attributes attributes
      r.asyncFinal r.handledUnion r.visited hscan
  refine ⟨ha, ?_, hv, by rw [hobj]⟩
  intro i hi
  rw [ha, testBit_andNot, hi]
  simp

/-- Witness for C9 at the report certified by `wEval3`: the bit-0 handler
returns mask 5, which also retires bit 2 from the asynchronous path even
though the loop still visits bit 2. -/
theorem handler_result_entire_mask_applied_witness :
    wR3.asyncFinal = andNot 5 wR3.handledUnion ∧
    wR3.visited = bitList 5 ∧
    wR3.obj.mAttributesMask = wThiz.mAttributesMask ||| wR3.asyncFinal :=
  have hall := handler_result_entire_mask_applied wTableWide wThiz ⟨0⟩
    5 7 2 3 wR3 wEval3
  ⟨hall.1, hall.2.2.1, hall.2.2.2⟩

/-- C2: the aggregator is notified only on the clean-to-dirty transition of
the pending mask.  For two consecutive reports with nonempty residual
asynchronous masks on an object whose pending mask starts empty, only the
first report writes (one single instance bit) into the aggregator, the
second is suppressed, while the pending mask ends as the union of both
residual masks. -/
theorem unlock_attributes_coalesces_second_report (table : HandlerTable)
    (thiz obj1 : IObject) (engine : IEngine)
    (a1 self1 f1 l1 selfL fL lL a2 self2 f2 l2 : Nat) (r1 r2 : ReportResult)
    (hstart : thiz.mAttributesMask = 0)
    (hid : thiz.mInstanceID ≠ 0)
    (h1 : object_unlock_exclusive_attributes_ table thiz engine a1
            self1 f1 l1 = some r1)
    (ha1 : r1.asyncFinal ≠ 0)
    (hlock : object_lock_exclusive_ r1.obj selfL fL lL = Except.ok obj1)
    (h2 : object_unlock_exclusive_attributes_ table obj1 r1.engine a2
            self2 f2 l2 = some r2)
    (ha2 : r2.asyncFinal ≠ 0) :
    r1.notified = true ∧
    r1.engine.mChangedMask
      = engine.mChangedMask ||| (1 <<< (thiz.mInstanceID - 1)) ∧
    r2.notified = false ∧
    r2.engine = r1.engine ∧
    r2.obj.mAttributesMask = r1.asyncFinal ||| r2.asyncFinal := by
  obtain ⟨-, -, -, -, hobj1, hif1⟩ :=
    unlockAttributes_spec table thiz engine a1 self1 f1 l1 r1 h1
  rw [if_pos ⟨ha1, hstart, hid⟩] at hif1
  obtain ⟨heng1, hnot1, -⟩ := hif1
  obtain ⟨-, hobj1'⟩ := lock_spec r1.obj selfL fL lL obj1 hlock
  obtain ⟨-, -, -, -, hobj2, hif2⟩ :=
    unlockAttributes_spec table obj1 r1.engine a2 self2 f2 l2 r2 h2
  have hmask1 : obj1.mAttributesMask = r1.asyncFinal := by
    rw [hobj1']
    dsimp only
    rw [hobj1]
    dsimp only
    rw [hstart, Nat.zero_or]
  have hcond2 : ¬(r2.asyncFinal ≠ 0 ∧ obj1.mAttributesMask = 0 ∧
      obj1.mInstanceID ≠ 0) := by
    intro hc
    exact ha1 (hmask1 ▸ hc.2.1)
  rw [if_neg hcond2] at hif2
  obtain ⟨heng2, hnot2⟩ := hif2
  refine ⟨hnot1, by rw [heng1], hnot2, heng2, ?_⟩
  rw [hobj2]
  dsimp only
  rw [hmask1]

/-- Witness for C2 at the two consecutive reports certified by `wEval1`,
`wLockEval` and `wEval2`. -/
theorem unlock_attributes_coalesces_second_report_witness :
    wR1.notified = true ∧
    wR1.engine.mChangedMask
      = (⟨0⟩ : IEngine).mChangedMask ||| (1 <<< (wThiz.mInstanceID - 1)) ∧
    wR2.notified = false ∧
    wR2.engine = wR1.engine ∧
    wR2.obj.mAttributesMask = wR1.asyncFinal ||| wR2.asyncFinal :=
  unlock_attributes_coalesces_second_report wTable wThiz wObj1 ⟨0⟩
    1 7 2 3 7 1 1 2 7 2 3 wR1 wR2 (by decide) (by decide)
    wEval1 (by decide) wLockEval wEval2 (by decide)

/-- C3: object-ID normalization maps Range A (the XA IDs) to itself, maps
Range B (the SL IDs) down by the fixed offset
`SL_OBJECTID_ENGINE - XA_OBJECTID_CAMERADEVICE - 1` onto the contiguous
block immediately after Range A, and a value outside both ranges is a fatal
assertion: normalization yields `none` and the whole report operation
refuses to dispatch (returns `none`) instead of using any handler row. -/
theorem normalize_objectID_ranges_fatal (oid : Nat) :
    (XA_OBJECTID_ENGINE ≤ oid ∧ oid ≤ XA_OBJECTID_CAMERADEVICE →
      normalizeObjectID oid = some oid) ∧
    (SL_OBJECTID_ENGINE ≤ oid ∧ oid ≤ SL_OBJECTID_METADATAEXTRACTOR →
      normalizeObjectID oid
        = some (oid - (SL_OBJECTID_ENGINE - XA_OBJECTID_CAMERADEVICE - 1)) ∧
      XA_OBJECTID_CAMERADEVICE + 1
        ≤ oid - (SL_OBJECTID_ENGINE - XA_OBJECTID_CAMERADEVICE - 1) ∧
      oid - (SL_OBJECTID_ENGINE - XA_OBJECTID_CAMERADEVICE - 1)
        ≤ XA_OBJECTID_CAMERADEVICE + 1
          + (SL_OBJECTID_METADATAEXTRACTOR - SL_OBJECTID_ENGINE)) ∧
    (¬(XA_OBJECTID_ENGINE ≤ oid ∧ oid ≤ XA_OBJECTID_CAMERADEVICE) →
     ¬(SL_OBJECTID_ENGINE ≤ oid ∧ oid ≤ SL_OBJECTID_METADATAEXTRACTOR) →
      normalizeObjectID oid = none ∧
      ∀ table thiz engine attributes self file line, thiz.objectID = oid →
        object_unlock_exclusive_attributes_ table thiz engine attributes
          self file line = none) := by
  refine ⟨?_, ?_, ?_⟩
  · intro hA
    rw [normalizeObjectID, if_pos hA]
  · intro hB
    have hnA : ¬(XA_OBJECTID_ENGINE ≤ oid ∧ oid ≤ XA_OBJECTID_CAMERADEVICE) := by
      simp only [XA_OBJECTID_ENGINE, XA_OBJECTID_CAMERADEVICE,
        SL_OBJECTID_ENGINE, SL_OBJECTID_METADATAEXTRACTOR] at hB ⊢
      omega
    refine ⟨by rw [normalizeObjectID, if_neg hnA, if_pos hB], ?_, ?_⟩ <;>
      simp only [XA_OBJECTID_ENGINE, XA_OBJECTID_CAMERADEVICE,
        SL_OBJECTID_ENGINE, SL_OBJECTID_METADATAEXTRACTOR] at hB ⊢ <;>
      omega
  · intro hnA hnB
    have hnone : normalizeObjectID oid = none := by
      rw [normalizeObjectID, if_neg hnA, if_neg hnB]
    refine ⟨hnone, ?_⟩
    intro table thiz engine attributes self file line hoid
    rw [object_unlock_exclusive_attributes_]
    by_cases hg : thiz.mOwner = self ∧ thiz.mFile ≠ 0 ∧ thiz.mLine ≠ 0
    · rw [if_pos hg, hoid, hnone]
    · rw [if_neg hg]

/-- Witness for C3: a Range-A value maps to itself, a Range-B value shifts
onto the dense block, and an out-of-range value is fatal for the whole
report operation. -/
theorem normalize_objectID_ranges_fatal_witness :
    normalizeObjectID 5 = some 5 ∧
    normalizeObjectID 4101 = some 13 ∧
    normalizeObjectID 0 = none ∧
    object_unlock_exclusive_attributes_ wTable wBad ⟨0⟩ 0 7 2 3 = none :=
  ⟨(normalize_objectID_ranges_fatal 5).1 (by decide),
   ((normalize_objectID_ranges_fatal 4101).2.1 (by decide)).1,
   ((normalize_objectID_ranges_fatal 0).2.2 (by decide) (by decide)).1,
   ((normalize_objectID_ranges_fatal 0).2.2 (by decide) (by decide)).2
     wTable wBad ⟨0⟩ 0 7 2 3 (by decide)⟩

/-- C7: under the model in which acquisition completes, a nonzero recorded
owner at acquisition time is never silently granted: the operation is a
fatal assertion, diagnosed as a recursive lock when the recorded owner is
the calling thread and as a corrupted hand-off when it is a different
thread. -/
theorem lock_exclusive_detects_recursive_lock (thiz : IObject)
    (self file line : Nat) (hown : thiz.mOwner ≠ 0) :
    (∀ o, object_lock_exclusive_ thiz self file line ≠ Except.ok o) ∧
    (thiz.mOwner = self →
      object_lock_exclusive_ thiz self file line
        = Except.error LockFailure.recursiveLock) ∧
    (thiz.mOwner ≠ self →
      object_lock_exclusive_ thiz self file line
        = Except.error LockFailure.corruptedHandoff) := by
  rw [object_lock_exclusive_, if_pos hown]
  by_cases h1 : thiz.mOwner = self
  · rw [if_pos h1]
    exact ⟨fun o hc => Except.noConfusion hc, fun _ => rfl,
      fun hc => absurd h1 hc⟩
  · rw [if_neg h1]
    exact ⟨fun o hc => Except.noConfusion hc, fun hc => absurd hc h1,
      fun _ => rfl⟩

/-- Witness for C7: thread 7 re-locking the object it already holds is the
recursive-lock fatal, a different thread 8 finding owner 7 is the
corrupted-hand-off fatal. -/
theorem lock_exclusive_detects_recursive_lock_witness :
    object_lock_exclusive_ wThiz 7 2 3
      = Except.error LockFailure.recursiveLock ∧
    object_lock_exclusive_ wThiz 8 2 3
      = Except.error LockFailure.corruptedHandoff :=
  ⟨(lock_exclusive_detects_recursive_lock wThiz 7 2 3 (by decide)).2.1
     (by decide),
   (lock_exclusive_detects_recursive_lock wThiz 8 2 3 (by decide)).2.2
     (by decide)⟩

/-- C8: a successful condition-variable wait by the lock-holding thread
publishes the object as unowned with provenance at the wait site just
before suspending, and on return the recorded owner is the calling thread
again with provenance at the wait site, whatever other threads did during
the suspension. -/
theorem cond_wait_clears_and_restores_owner (during : IObject → IObject)
    (thiz : IObject) (self file line : Nat) (susp ret : IObject)
    (h : object_cond_wait_ during thiz self file line = some (susp, ret)) :
    thiz.mOwner = self ∧
    susp = { thiz with mOwner := 0, mFile := file, mLine := line } ∧
    susp.mOwner = 0 ∧ susp.mFile = file ∧ susp.mLine = line ∧
    ret.mOwner = self ∧ ret.mFile = file ∧ ret.mLine = line := by
  rw [object_cond_wait_] at h
  by_cases hg : thiz.mOwner = self ∧ thiz.mFile ≠ 0 ∧ thiz.mLine ≠ 0
  · rw [if_pos hg] at h
    simp only [Option.some.injEq, Prod.mk.injEq] at h
    obtain ⟨hs, hr⟩ := h
    subst hs
    subst hr
    exact ⟨hg.1, rfl, rfl, rfl, rfl, rfl, rfl, rfl⟩
  · rw [if_neg hg] at h
    exact Option.noConfusion h

/-- Witness for C8 at a concrete wait on `wThiz` by thread 7, with identity
interference during the suspension. -/
theorem cond_wait_clears_and_restores_owner_witness :
    wThiz.mOwner = 7 ∧
    (⟨1, 1, 0, 0, 2, 3⟩ : IObject)
      = { wThiz with mOwner := 0, mFile := 2, mLine := 3 } ∧
    (⟨1, 1, 0, 0, 2, 3⟩ : IObject).mOwner = 0 ∧
    (⟨1, 1, 0, 0, 2, 3⟩ : IObject).mFile = 2 ∧
    (⟨1, 1, 0, 0, 2, 3⟩ : IObject).mLine = 3 ∧
    (⟨1, 1, 0, 7, 2, 3⟩ : IObject).mOwner = 7 ∧
    (⟨1, 1, 0, 7, 2, 3⟩ : IObject).mFile = 2 ∧
    (⟨1, 1, 0, 7, 2, 3⟩ : IObject).mLine = 3 :=
  cond_wait_clears_and_restores_owner (fun o => o) wThiz 7 2 3
    ⟨1, 1, 0, 0, 2, 3⟩ ⟨1, 1, 0, 7, 2, 3⟩
    (by simp [object_cond_wait_, wThiz])

/-- C10 counterexample: with an empty changed-attributes mask, the combined
unlock-and-report operation is NOT equivalent to the plain exclusive unlock
for every object: on `wBad`, whose `objectID` is outside both ID ranges,
the combined operation still normalizes the category and dies on the fatal
assertion (`none`), while the plain unlock succeeds. -/
theorem unlock_attributes_empty_vs_plain_counterexample :
    object_unlock_exclusive_attributes_ wTable wBad ⟨0⟩ 0 7 2 3 = none ∧
    object_unlock_exclusive_ wBad 7 2 3 = some ⟨0, 1, 0, 0, 2, 3⟩ := by
  constructor
  · simp [object_unlock_exclusive_attributes_, wTable, wBad,
      normalizeObjectID, XA_OBJECTID_ENGINE, XA_OBJECTID_CAMERADEVICE,
      SL_OBJECTID_ENGINE, SL_OBJECTID_METADATAEXTRACTOR]
  · simp [object_unlock_exclusive_, wBad]

/-- C10 (amended): provided the object's category normalizes (its ID lies
in one of the two external ranges), calling the combined unlock-and-report
operation with an empty changed-attributes mask is equivalent to the plain
exclusive unlock: same success condition, no handler invoked, pending mask
unchanged, no aggregator notification, and the same provenance updates on
release. -/
theorem unlock_attributes_empty_equiv_plain_in_range (table : HandlerTable)
    (thiz : IObject) (engine : IEngine) (self file line : Nat)
    (hin : (normalizeObjectID thiz.objectID).isSome) :
    object_unlock_exclusive_attributes_ table thiz engine 0 self file line
      = Option.map (fun o => ⟨o, engine, 0, 0, [], false⟩)
          (object_unlock_exclusive_ thiz self file line) := by
  rw [object_unlock_exclusive_attributes_, object_unlock_exclusive_]
  by_cases hg : thiz.mOwner = self ∧ thiz.mFile ≠ 0 ∧ thiz.mLine ≠ 0
  · rw [if_pos hg, if_pos hg]
    obtain ⟨oid, hnorm⟩ := Option.isSome_iff_exists.mp hin
    rw [hnorm]
    dsimp only
    have hscan : scanAttributes table thiz oid 0 0 = some (0, 0, []) := by
      rw [scanAttributes]
      simp
    rw [hscan]
    dsimp only [Option.map_some]
    rw [if_neg (show ¬((0 : Nat) ≠ 0) by omega)]
    dsimp only
    rw [if_neg (show ¬((0 : Nat) ≠ ATTR_NONE) by simp [ATTR_NONE])]
    rfl
  · rw [if_neg hg, if_neg hg]
    rfl

/-- Witness for the amended C10 at the in-range object `wThiz`. -/
theorem unlock_attributes_empty_equiv_plain_in_range_witness :
    object_unlock_exclusive_attributes_ wTable wThiz ⟨0⟩ 0 7 2 3
      = Option.map (fun o => ⟨o, ⟨0⟩, 0, 0, [], false⟩)
          (object_unlock_exclusive_ wThiz 7 2 3) :=
  unlock_attributes_empty_equiv_plain_in_range wTable wThiz ⟨0⟩ 7 2 3
    (by simp [normalizeObjectID, wThiz, XA_OBJECTID_ENGINE,
      XA_OBJECTID_CAMERADEVICE])
